import Mathlib

/-!
# kube-cdevent: the sync-gated informer handlers of `main.go`

A shallow embedding of `src/main.go` from line 44 on: the gate variable
`synced` with its `sync.RWMutex`, the three callbacks registered with
`informer.AddEventHandler` (lines 46-82) and the rest of `main` (lines 84-100).
The client construction of lines 22-42 is not part of the model.

Concurrency is embedded at the granularity the mutex gives: a callback body runs
between `mux.RLock()` and the deferred `mux.RUnlock()`, the write of line 92 runs
between `mux.Lock()` and `mux.Unlock()`, so a callback and the write never
overlap and each is one atomic step of the step function below.  A run is a
schedule: a list of steps taken by `main`, by its environment (the return of
`cache.WaitForCacheSync`, the receive on `ctx.Done()`) and by the informer
(a callback invocation).

A second step function makes the lock explicit: taking and releasing `mux` and
the accesses to `synced` are steps of their own, taken by `main` and by any
number of handler-invoking units, and the mutual exclusion assumed above is
proved there.
-/

namespace KubeCdevent

/-! ## Data model -/

/-- Modelled from the spec: the typed Resource, `unstructured.Unstructured` of
`k8s.io/apimachinery`, which is not under `src/`.  The spec lists the attributes
name, namespace and resource version; `main.go` only calls `GetName`. -/
structure Unstructured where
  name : String
  nspace : String
  resourceVersion : String
  deriving DecidableEq, Repr

/-- Modelled from the spec: `u.GetName()`, the name attribute of the Resource. -/
def Unstructured.GetName (u : Unstructured) : String := u.name

/-- The nil-pointer panic of the Go runtime. -/
def nilDereference : String :=
  "runtime error: invalid memory address or nil pointer dereference"

/-- Modelled from the spec: `u.GetName()` on a pointer `u` of type
`*unstructured.Unstructured` (`none` is the nil pointer).  The method of
`k8s.io/apimachinery` reads the field `u.Object`, so it panics on a nil receiver
and yields the name attribute otherwise. -/
def GetName : Option Unstructured → Except String String
  | some u => .ok u.GetName
  | none => .error nilDereference

/-- A value of Go type `interface{}` as a callback receives it: a pointer
`*unstructured.Unstructured` to a Resource, the nil pointer of that type, or a
value of some other dynamic type (for example a `cache.DeletedFinalStateUnknown`
tombstone, or the nil interface), named here by `dynType`. -/
inductive Obj where
  | unstructured (u : Unstructured)
  | nilUnstructured
  | other (dynType : String)
  deriving DecidableEq, Repr

/-- The type assertion `obj.(*unstructured.Unstructured)` of lines 53, 65, 77:
it yields the pointer (the nil pointer included) when the dynamic type matches
and panics otherwise. -/
def Obj.assertUnstructured : Obj → Except String (Option Unstructured)
  | .unstructured u => .ok (some u)
  | .nilUnstructured => .ok none
  | .other dynType =>
      .error ("interface conversion: interface \x7b\x7d is " ++ dynType ++
        ", not *unstructured.Unstructured")

/-- Which concurrency unit wrote a chunk of standard output. -/
inductive Writer where
  | main
  | handler
  deriving DecidableEq, Repr

/-- One write to standard output (one `fmt.Printf` or `fmt.Println` call). -/
structure Write where
  writer : Writer
  text : String
  deriving DecidableEq, Repr

/-- What the callbacks can see and change: the captured variable `synced`
(line 45) and the standard output of the process. -/
structure World where
  synced : Bool
  stdout : List Write
  deriving DecidableEq, Repr

/-- The call `fmt.Printf(format, name)` made by a callback, for the three formats
of the program, each of the shape `"<verb>: %s\n"`. -/
def World.printf (w : World) (verb : String) (name : String) : World :=
  { w with stdout := w.stdout ++ [⟨Writer.handler, verb ++ ": " ++ name ++ "\n"⟩] }

/-! ## The registered callbacks (lines 46-82) -/

/-- Lines 47-58, `AddFunc`. -/
def AddFunc (w : World) (obj : Obj) : Except String World :=
  if !w.synced then
    .ok w
  else do
    let u ← obj.assertUnstructured
    let name ← GetName u
    pure (w.printf "created" name)

/-- Lines 59-69, `UpdateFunc`. -/
def UpdateFunc (w : World) (_oldObj newObj : Obj) : Except String World :=
  if !w.synced then
    .ok w
  else do
    let u ← newObj.assertUnstructured
    let name ← GetName u
    pure (w.printf "updated" name)

/-- Lines 70-81, `DeleteFunc`. -/
def DeleteFunc (w : World) (obj : Obj) : Except String World :=
  if !w.synced then
    .ok w
  else do
    let u ← obj.assertUnstructured
    let name ← GetName u
    pure (w.printf "deleted" name)

/-- A notification of the informer: which of the three callbacks of
`cache.ResourceEventHandlerFuncs` it calls, and with which arguments. -/
inductive Event where
  | added (obj : Obj)
  | updated (oldObj newObj : Obj)
  | deleted (obj : Obj)
  deriving DecidableEq, Repr

/-- The informer delivering a notification to the registered
`cache.ResourceEventHandlerFuncs`: `OnAdd`, `OnUpdate`, `OnDelete` call the
function of the same kind. -/
def dispatch (w : World) : Event → Except String World
  | .added obj => AddFunc w obj
  | .updated oldObj newObj => UpdateFunc w oldObj newObj
  | .deleted obj => DeleteFunc w obj

/-! ## The main control unit (lines 84-100) -/

/-- Control points of `main`, named by source line. -/
inductive Pc where
  | l89   -- about to run `fmt.Println("waiting for cache sync")`
  | l90   -- blocked in `cache.WaitForCacheSync(ctx.Done(), informer.HasSynced)`
  | l91   -- about to run `mux.Lock(); synced = isSynced; mux.Unlock()`
  | l94   -- about to run `fmt.Println("cache synced")`
  | l96   -- about to test `!isSynced`
  | l100  -- blocked in `<-ctx.Done()`
  deriving DecidableEq, Repr

/-- Whether the process is alive, and how it ended. -/
inductive Status where
  | running
  | fatal (msg : String)     -- `log.Fatal(msg)`, line 97
  | returned                 -- `main` returned after line 100
  | panicked (msg : String)  -- an unrecovered panic in a callback
  deriving DecidableEq, Repr

/-- The state of the process: the world of the callbacks, the control point of
`main`, its local `isSynced` (unset until line 90 returns) and the status. -/
structure State extends World where
  pc : Pc
  isSynced : Option Bool
  status : Status
  deriving DecidableEq, Repr

/-- The state once `go informer.Run(ctx.Done())` (line 87) has started the
informer: `synced := false` (line 45), nothing printed. -/
def init : State :=
  { synced := false, stdout := [], pc := .l89, isSynced := none, status := .running }

/-- `fmt.Println(line)` called by `main`. -/
def State.println (s : State) (line : String) : State :=
  { s with stdout := s.stdout ++ [⟨Writer.main, line ++ "\n"⟩] }

/-- The steps of a run. -/
inductive Step where
  | main                     -- `main` executes the statement at its control point
  | waitReturns (b : Bool)   -- `cache.WaitForCacheSync` returns `b` (line 90)
  | done                     -- the receive from `ctx.Done()` completes (line 100)
  | deliver (e : Event)      -- the informer invokes the callback for `e`
  deriving DecidableEq, Repr

/-- One statement of `main` at a control point where it does not block. -/
def mainStep (s : State) : Option State :=
  match s.pc with
  | .l89 => some { s.println "waiting for cache sync" with pc := .l90 }
  | .l90 => none
  | .l91 =>
      match s.isSynced with
      | some b => some { s with synced := b, pc := .l94 }
      | none => none
  | .l94 => some { s.println "cache synced" with pc := .l96 }
  | .l96 =>
      match s.isSynced with
      | some true => some { s with pc := .l100 }
      | some false => some { s with status := .fatal "failed to sync" }
      | none => none
  | .l100 => none

/-- One step of the process; `none` when the step cannot be taken in `s`. -/
def step (s : State) (t : Step) : Option State :=
  if s.status ≠ .running then none
  else
    match t with
    | .main => mainStep s
    | .waitReturns b =>
        if s.pc = .l90 then some { s with isSynced := some b, pc := .l91 } else none
    | .done =>
        if s.pc = .l100 then some { s with status := .returned } else none
    | .deliver e =>
        match dispatch s.toWorld e with
        | .ok w => some { s with toWorld := w }
        | .error msg => some { s with status := .panicked msg }

/-- A run: the steps of a schedule taken one after the other. -/
def run (s : State) : List Step → Option State
  | [] => some s
  | t :: ts => (step s t).bind (fun s1 => run s1 ts)

/-- The texts written to standard output by callbacks, in order. -/
def handlerWrites (w : World) : List String :=
  (w.stdout.filter (fun x => x.writer = Writer.handler)).map (fun x => x.text)

/-- The notifications delivered in a schedule, in delivery order. -/
def deliveries : List Step → List Event
  | [] => []
  | .deliver e :: ts => e :: deliveries ts
  | _ :: ts => deliveries ts

/-- Whether control of `main` has passed the locked write of lines 91-93. -/
def State.pastGateWrite (s : State) : Bool :=
  match s.pc with
  | .l89 | .l90 | .l91 => false
  | .l94 | .l96 | .l100 => true

/-- The line a callback is to print for a notification whose payloads are typed
Resources; `none` for a notification with a payload of another type. -/
def expectedLine : Event → Option String
  | .added (.unstructured r) => some ("created: " ++ r.name ++ "\n")
  | .updated (.unstructured _) (.unstructured r) => some ("updated: " ++ r.name ++ "\n")
  | .deleted (.unstructured r) => some ("deleted: " ++ r.name ++ "\n")
  | _ => none

/-- The payload a callback extracts with its type assertion: `obj` for an
addition or a deletion, `newObj` for an update. -/
def Event.extracted : Event → Obj
  | .added obj => obj
  | .updated _ newObj => newObj
  | .deleted obj => obj

/-- Whether a payload is a typed Resource: a pointer to a Resource, not the nil
pointer and not a value of another type. -/
def Obj.isUnstructured : Obj → Bool
  | .unstructured _ => true
  | .nilUnstructured => false
  | .other _ => false

/-- The state in which `main` stands at the locked write of line 91 after a
successful wait: the gate still false, only the line of `main` printed. -/
def stateAtGateWrite : State :=
  { synced := false, stdout := [⟨Writer.main, "waiting for cache sync\n"⟩],
    pc := .l91, isSynced := some true, status := .running }

/-! ## Concrete resources, schedules and states used in the examples -/

/-- A deployment named `x`. -/
def resX : Unstructured := ⟨"x", "default", "1"⟩

/-- The deployment `x` at a later resource version. -/
def resX2 : Unstructured := ⟨"x", "default", "2"⟩

/-- A deployment named `y`. -/
def resY : Unstructured := ⟨"y", "default", "1"⟩

/-- A deployment named `z`. -/
def resZ : Unstructured := ⟨"z", "kube-system", "7"⟩

/-- A run up to the locked write of a successful sync, with additions of `x`, `y`
and `z` delivered on the way, the last one after the wait has returned. -/
def preSchedule : List Step :=
  [.deliver (.added (.unstructured resX)), .main, .deliver (.added (.unstructured resY)),
    .waitReturns true, .deliver (.added (.unstructured resZ))]

/-- The rest of that run after the locked write: an update of `x` is delivered,
`main` goes on to block on the done signal and the signal arrives. -/
def postSchedule : List Step :=
  [.main, .deliver (.updated (.unstructured resX) (.unstructured resX2)), .main, .done]

/-- The state after the locked write of a successful sync. -/
def stateGateOpen : State :=
  { synced := true, stdout := [⟨Writer.main, "waiting for cache sync\n"⟩],
    pc := .l94, isSynced := some true, status := .running }

/-- The state at the end of `preSchedule` followed by the locked write and
`postSchedule`. -/
def stateEndSynced : State :=
  { synced := true,
    stdout := [⟨Writer.main, "waiting for cache sync\n"⟩, ⟨Writer.main, "cache synced\n"⟩,
      ⟨Writer.handler, "updated: x\n"⟩],
    pc := .l100, isSynced := some true, status := .returned }

/-- A run in which the wait returns false, up to the fatal exit, with an addition
delivered at each stage. -/
def failedSchedule : List Step :=
  [.main, .deliver (.added (.unstructured resX)), .waitReturns false,
    .deliver (.added (.unstructured resY)), .main, .deliver (.added (.other "tombstone")),
    .main, .main]

/-- The state at the end of `failedSchedule`. -/
def stateEndFailed : State :=
  { synced := false,
    stdout := [⟨Writer.main, "waiting for cache sync\n"⟩, ⟨Writer.main, "cache synced\n"⟩],
    pc := .l96, isSynced := some false, status := .fatal "failed to sync" }

/-- The shortest run with a failed sync: print, wait returns false, locked write,
print, fatal exit. -/
def failedMinimal : List Step :=
  [.main, .waitReturns false, .main, .main, .main]

/-! ## The reader/writer lock made explicit

A second, finer step function for the same program: `mux.RLock()`, the read of
`synced`, the rest of the callback and the deferred `mux.RUnlock()` are separate
steps of a handler-invoking unit, and `mux.Lock()`, the write and `mux.Unlock()`
are separate steps of `main`.  Any number of units, named by natural numbers,
may stand inside callbacks at the same time.  Steps interleave; a read yields
the value stored last. -/

/-- Control points of `main`, the locked write of lines 91-93 split in three. -/
inductive LPc where
  | l89   -- about to run `fmt.Println("waiting for cache sync")`
  | l90   -- blocked in `cache.WaitForCacheSync(ctx.Done(), informer.HasSynced)`
  | l91   -- about to call `mux.Lock()`
  | l92   -- holds the lock, about to run `synced = isSynced`
  | l93   -- about to call `mux.Unlock()`
  | l94   -- about to run `fmt.Println("cache synced")`
  | l96   -- about to test `!isSynced`
  | l100  -- blocked in `<-ctx.Done()`
  deriving DecidableEq, Repr

/-- Where a handler-invoking unit stands. -/
inductive HandlerPc where
  | idle                              -- in no callback
  | atRead (e : Event)                -- past `mux.RLock()`, about to evaluate `synced`
  | hasRead (b : Bool) (e : Event)    -- has read `b`, about to branch on `!synced`
  | atReturn (panic : Option String)  -- about to run the deferred `mux.RUnlock()`
  deriving DecidableEq, Repr

/-- The statements of a callback after its guard: the type assertion, `GetName`
and `fmt.Printf` (lines 53-55, 65-66, 77-78). -/
def body (w : World) : Event → Except String World
  | .added obj => do
      let u ← obj.assertUnstructured
      let name ← GetName u
      pure (w.printf "created" name)
  | .updated _ newObj => do
      let u ← newObj.assertUnstructured
      let name ← GetName u
      pure (w.printf "updated" name)
  | .deleted obj => do
      let u ← obj.assertUnstructured
      let name ← GetName u
      pure (w.printf "deleted" name)

/-- The state of the process with the lock explicit.  Of `mux` it records whether
it is held exclusively (`writer`) and which units hold it shared (`readers`). -/
structure LState extends World where
  writer : Bool
  readers : List Nat
  units : Nat → HandlerPc
  pc : LPc
  isSynced : Option Bool
  status : Status

/-- Modelled from the spec: `mux.RLock()` of `sync.RWMutex` called by unit `i`;
it blocks while the lock is held exclusively. -/
def LState.RLock (s : LState) (i : Nat) : Option LState :=
  if s.writer = true then none else some { s with readers := i :: s.readers }

/-- Modelled from the spec: `mux.RUnlock()` called by unit `i`. -/
def LState.RUnlock (s : LState) (i : Nat) : LState :=
  { s with readers := s.readers.erase i }

/-- Modelled from the spec: `mux.Lock()` of `sync.RWMutex`; it blocks while the
lock is held, shared or exclusively. -/
def LState.Lock (s : LState) : Option LState :=
  if s.writer = false ∧ s.readers = [] then some { s with writer := true } else none

/-- Modelled from the spec: `mux.Unlock()`. -/
def LState.Unlock (s : LState) : LState :=
  { s with writer := false }

/-- The state once `go informer.Run(ctx.Done())` (line 87) has started the
informer: `synced := false`, the lock free, every unit idle. -/
def linit : LState :=
  { synced := false, stdout := [], writer := false, readers := [],
    units := fun _ => .idle, pc := .l89, isSynced := none, status := .running }

/-- `fmt.Println(line)` called by `main`. -/
def LState.println (s : LState) (line : String) : LState :=
  { s with stdout := s.stdout ++ [⟨Writer.main, line ++ "\n"⟩] }

/-- The steps of a run with the lock explicit. -/
inductive LStep where
  | main                          -- `main` executes the statement at its control point
  | waitReturns (b : Bool)        -- `cache.WaitForCacheSync` returns `b` (line 90)
  | done                          -- the receive from `ctx.Done()` completes (line 100)
  | invoke (i : Nat) (e : Event)  -- unit `i` enters the callback for `e`: `mux.RLock()`
  | read (i : Nat)                -- unit `i` evaluates `synced` (lines 50, 62, 73)
  | act (i : Nat)                 -- unit `i` returns at the guard or runs the body
  | leave (i : Nat)               -- unit `i` runs the deferred `mux.RUnlock()`
  deriving DecidableEq, Repr

/-- One statement of `main`, the lock explicit. -/
def lmainStep (s : LState) : Option LState :=
  match s.pc with
  | .l89 => some { s.println "waiting for cache sync" with pc := .l90 }
  | .l90 => none
  | .l91 => (s.Lock).map (fun s1 => { s1 with pc := .l92 })
  | .l92 =>
      match s.isSynced with
      | some b => some { s with synced := b, pc := .l93 }
      | none => none
  | .l93 => some { s.Unlock with pc := .l94 }
  | .l94 => some { s.println "cache synced" with pc := .l96 }
  | .l96 =>
      match s.isSynced with
      | some true => some { s with pc := .l100 }
      | some false => some { s with status := .fatal "failed to sync" }
      | none => none
  | .l100 => none

/-- One step of the process with the lock explicit; `none` when the step cannot
be taken in `s` (the unit is elsewhere, or it blocks on the lock). -/
def lstep (s : LState) (t : LStep) : Option LState :=
  if s.status ≠ .running then none
  else
    match t with
    | .main => lmainStep s
    | .waitReturns b =>
        if s.pc = .l90 then some { s with isSynced := some b, pc := .l91 } else none
    | .done =>
        if s.pc = .l100 then some { s with status := .returned } else none
    | .invoke i e =>
        match s.units i with
        | .idle =>
            (s.RLock i).map (fun s1 => { s1 with units := Function.update s1.units i (.atRead e) })
        | _ => none
    | .read i =>
        match s.units i with
        | .atRead e => some { s with units := Function.update s.units i (.hasRead s.synced e) }
        | _ => none
    | .act i =>
        match s.units i with
        | .hasRead false _ =>
            some { s with units := Function.update s.units i (.atReturn none) }
        | .hasRead true e =>
            match body s.toWorld e with
            | .ok w =>
                some { s with toWorld := w, units := Function.update s.units i (.atReturn none) }
            | .error msg =>
                some { s with units := Function.update s.units i (.atReturn (some msg)) }
        | _ => none
    | .leave i =>
        match s.units i with
        | .atReturn none =>
            some { s.RUnlock i with units := Function.update s.units i .idle }
        | .atReturn (some msg) =>
            some { s.RUnlock i with
              units := Function.update s.units i .idle, status := .panicked msg }
        | _ => none

/-- A run with the lock explicit. -/
def lrun (s : LState) : List LStep → Option LState
  | [] => some s
  | t :: ts => (lstep s t).bind (fun s1 => lrun s1 ts)

/-- Whether `main` has returned from `mux.Unlock()` of line 93. -/
def LState.pastUnlock (s : LState) : Bool :=
  match s.pc with
  | .l89 | .l90 | .l91 | .l92 | .l93 => false
  | .l94 | .l96 | .l100 => true

/-- Whether `main` has run the write of line 92. -/
def LState.pastWrite (s : LState) : Bool :=
  match s.pc with
  | .l89 | .l90 | .l91 | .l92 => false
  | .l93 | .l94 | .l96 | .l100 => true

/-- A run with a failed sync in which unit 0 enters a callback and reads the gate
after `main` has returned from `mux.Unlock()`. -/
def lockedFailedSchedule : List LStep :=
  [.main, .waitReturns false, .main, .main, .main,
    .invoke 0 (.added (.unstructured resX)), .read 0]

/-- A run with a successful sync up to the return of `main` from `mux.Unlock()`;
unit 1 runs a whole callback before the write. -/
def lockedSyncedSchedule : List LStep :=
  [.invoke 1 (.added (.unstructured resY)), .main, .read 1, .waitReturns true, .act 1,
    .leave 1, .main, .main, .main]

/-- What holds in every state of every run with the lock explicit. -/
structure LInv (s : LState) : Prop where
  holds : ∀ i, s.units i ≠ .idle ↔ i ∈ s.readers
  nodup : s.readers.Nodup
  wr : s.writer = true ↔ (s.pc = .l92 ∨ s.pc = .l93)
  excl : s.writer = true → s.readers = []
  pre : s.pastWrite = false → s.synced = false
  post : s.pastWrite = true → s.isSynced = some s.synced
  unset : s.isSynced = none ↔ (s.pc = .l89 ∨ s.pc = .l90)
  fresh : ∀ i b e, s.units i = .hasRead b e → b = s.synced

/-! ## Invariant of the reachable states -/

/-- What holds in every state of every run. -/
structure Inv (s : State) : Prop where
  pre_gate : s.pastGateWrite = false →
    s.synced = false ∧ s.status = .running ∧
      s.stdout = (if s.pc = .l89 then [] else [⟨Writer.main, "waiting for cache sync\n"⟩])
  unset : s.isSynced = none ↔ (s.pc = .l89 ∨ s.pc = .l90)
  post_gate : s.pastGateWrite = true → s.isSynced = some s.synced
  quiet : s.synced = false → handlerWrites s.toWorld = []
  at_done : s.pc = .l100 → s.isSynced = some true
  fatal_failed : ∀ msg, s.status = .fatal msg → s.isSynced = some false ∧ s.pc = .l96
  returned_done : s.status = .returned → s.pc = .l100
  panicked_synced : ∀ msg, s.status = .panicked msg → s.synced = true

theorem inv_init : Inv init := by
  constructor <;> simp [init, State.pastGateWrite, handlerWrites]

theorem handlerWrites_printf (w : World) (verb name : String) :
    handlerWrites (w.printf verb name) = handlerWrites w ++ [verb ++ ": " ++ name ++ "\n"] := by
  simp [handlerWrites, World.printf, List.filter_append]

theorem handlerWrites_println (s : State) (line : String) :
    handlerWrites (s.println line).toWorld = handlerWrites s.toWorld := by
  simp [handlerWrites, State.println, List.filter_append]

theorem dispatch_unsynced (w : World) (e : Event) (h : w.synced = false) :
    dispatch w e = .ok w := by
  cases e <;> simp [dispatch, AddFunc, UpdateFunc, DeleteFunc, h]

theorem dispatch_synced_ok (w w1 : World) (e : Event) (h : dispatch w e = .ok w1) :
    w1.synced = w.synced := by
  cases hs : w.synced
  · rw [dispatch_unsynced w e hs] at h
    cases h
    exact hs
  · cases e with
    | added obj =>
        cases obj <;>
          simp [dispatch, AddFunc, hs, Obj.assertUnstructured, GetName, bind, Except.bind, pure,
            Except.pure, World.printf] at h
        subst h; simp [hs]
    | updated o obj =>
        cases obj <;>
          simp [dispatch, UpdateFunc, hs, Obj.assertUnstructured, GetName, bind, Except.bind, pure,
            Except.pure, World.printf] at h
        subst h; simp [hs]
    | deleted obj =>
        cases obj <;>
          simp [dispatch, DeleteFunc, hs, Obj.assertUnstructured, GetName, bind, Except.bind, pure,
            Except.pure, World.printf] at h
        subst h; simp [hs]

theorem dispatch_unsynced_eq (w w1 : World) (e : Event) (h : dispatch w e = .ok w1)
    (hs : w.synced = false) : w1 = w := by
  rw [dispatch_unsynced w e hs] at h
  cases h
  rfl

theorem step_running (s s1 : State) (t : Step) (h : step s t = some s1) :
    s.status = .running := by
  unfold step at h
  by_cases hr : s.status = .running
  · exact hr
  · simp [hr] at h

theorem step_deliver_ok (s s1 : State) (e : Event) (h : step s (.deliver e) = some s1) :
    (∃ w, dispatch s.toWorld e = .ok w ∧ s1 = { s with toWorld := w }) ∨
      (∃ msg, dispatch s.toWorld e = .error msg ∧ s1 = { s with status := .panicked msg }) := by
  have hr := step_running s s1 _ h
  obtain ⟨w0, pc, isS, status⟩ := s
  simp only at hr
  subst hr
  simp only [step, ne_eq, not_true_eq_false, if_false] at h
  cases hd : dispatch w0 e with
  | ok w =>
      left
      simp only [hd] at h
      exact ⟨w, rfl, (Option.some.inj h).symm⟩
  | error msg =>
      right
      simp only [hd] at h
      exact ⟨msg, rfl, (Option.some.inj h).symm⟩

theorem inv_step (s s1 : State) (t : Step) (hi : Inv s) (h : step s t = some s1) :
    Inv s1 := by
  have hr := step_running s s1 _ h
  cases t with
  | deliver e =>
      rcases step_deliver_ok s s1 e h with ⟨w, hd, rfl⟩ | ⟨msg, hd, rfl⟩
      · have hsy := dispatch_synced_ok _ _ _ hd
        cases hg : s.synced
        · have hw := dispatch_unsynced_eq _ _ _ hd hg
          subst hw
          exact hi
        · refine ⟨?_, hi.unset, ?_, ?_, hi.at_done, hi.fatal_failed, hi.returned_done, ?_⟩
          · intro hp
            have := (hi.pre_gate hp).1
            simp [hg] at this
          · intro hp
            have := hi.post_gate hp
            simpa [hsy] using this
          · intro hf
            simp [hsy, hg] at hf
          · intro m _
            simp [hsy, hg]
      · cases hg : s.synced
        · rw [dispatch_unsynced _ e hg] at hd
          cases hd
        · refine ⟨?_, hi.unset, hi.post_gate, hi.quiet, hi.at_done, ?_, ?_, ?_⟩
          · intro hp
            have := (hi.pre_gate hp).1
            simp [hg] at this
          · intro m hm
            simp at hm
          · intro hm
            simp at hm
          · intro m _
            exact hg
  | waitReturns b =>
      obtain ⟨⟨g, out⟩, pc, isS, status⟩ := s
      simp only at hr
      subst hr
      simp only [step, ne_eq, not_true_eq_false, if_false] at h
      by_cases hp : pc = .l90
      · subst hp
        simp only [if_true] at h
        have h1 := (Option.some.inj h).symm
        subst h1
        obtain ⟨i1, i2, i3, i4, i5, i6, i7, i8⟩ := hi
        constructor <;> simp_all [State.pastGateWrite]
      · simp [hp] at h
  | done =>
      obtain ⟨⟨g, out⟩, pc, isS, status⟩ := s
      simp only at hr
      subst hr
      simp only [step, ne_eq, not_true_eq_false, if_false] at h
      by_cases hp : pc = .l100
      · subst hp
        simp only [if_true] at h
        have h1 := (Option.some.inj h).symm
        subst h1
        obtain ⟨i1, i2, i3, i4, i5, i6, i7, i8⟩ := hi
        constructor <;> simp_all [State.pastGateWrite]
      · simp [hp] at h
  | main =>
      obtain ⟨⟨g, out⟩, pc, isS, status⟩ := s
      simp only at hr
      subst hr
      simp only [step, ne_eq, not_true_eq_false, if_false] at h
      unfold mainStep at h
      obtain ⟨i1, i2, i3, i4, i5, i6, i7, i8⟩ := hi
      cases pc with
      | l89 =>
          simp only at h
          have h1 := (Option.some.inj h).symm
          subst h1
          constructor <;> simp_all [State.pastGateWrite, State.println, handlerWrites]
      | l90 => simp at h
      | l91 =>
          cases isS with
          | none => simp at h
          | some b =>
              simp only at h
              have h1 := (Option.some.inj h).symm
              subst h1
              constructor <;> simp_all [State.pastGateWrite]
      | l94 =>
          simp only at h
          have h1 := (Option.some.inj h).symm
          subst h1
          constructor <;>
            simp_all [State.pastGateWrite, State.println, handlerWrites, List.filter_append]
      | l96 =>
          cases isS with
          | none => simp at h
          | some b =>
              cases b <;> simp only at h <;>
                (have h1 := (Option.some.inj h).symm
                 subst h1
                 constructor <;> simp_all [State.pastGateWrite])
      | l100 => simp at h

/-! ## Runs -/

theorem run_append (s : State) (a b : List Step) :
    run s (a ++ b) = (run s a).bind (fun s1 => run s1 b) := by
  induction a generalizing s with
  | nil => simp [run]
  | cons t ts ih =>
      simp only [List.cons_append, run]
      cases step s t with
      | none => simp
      | some s1 => simpa using ih s1

theorem run_cons_some (s st : State) (t : Step) (ts : List Step)
    (h : run s (t :: ts) = some st) : ∃ s1, step s t = some s1 ∧ run s1 ts = some st := by
  simp only [run] at h
  cases hs : step s t with
  | none => simp [hs] at h
  | some s1 => exact ⟨s1, rfl, by simpa [hs] using h⟩

theorem run_append_some (s st : State) (a b : List Step) (h : run s (a ++ b) = some st) :
    ∃ s1, run s a = some s1 ∧ run s1 b = some st := by
  rw [run_append] at h
  cases hs : run s a with
  | none => simp [hs] at h
  | some s1 => exact ⟨s1, rfl, by simpa [hs] using h⟩

theorem inv_run (s st : State) (sched : List Step) (hi : Inv s)
    (h : run s sched = some st) : Inv st := by
  induction sched generalizing s with
  | nil =>
      simp only [run] at h
      cases h
      exact hi
  | cons t ts ih =>
      obtain ⟨s1, h1, h2⟩ := run_cons_some s st t ts h
      exact ih s1 (inv_step s s1 t hi h1) h2

theorem step_isSynced (s s1 : State) (t : Step) (b : Bool) (hi : Inv s)
    (h : step s t = some s1) :
    s1.isSynced = some b ↔ (s.isSynced = some b ∨ t = .waitReturns b) := by
  have hr := step_running s s1 _ h
  cases t with
  | deliver e =>
      rcases step_deliver_ok s s1 e h with ⟨w, _, rfl⟩ | ⟨msg, _, rfl⟩ <;> simp
  | waitReturns c =>
      obtain ⟨⟨g, out⟩, pc, isS, status⟩ := s
      simp only at hr
      subst hr
      simp only [step, ne_eq, not_true_eq_false, if_false] at h
      by_cases hp : pc = .l90
      · subst hp
        simp only [if_true] at h
        have h1 := (Option.some.inj h).symm
        subst h1
        have hu := hi.unset
        simp at hu
        subst hu
        simp [eq_comm]
      · simp [hp] at h
  | done =>
      obtain ⟨⟨g, out⟩, pc, isS, status⟩ := s
      simp only at hr
      subst hr
      simp only [step, ne_eq, not_true_eq_false, if_false] at h
      by_cases hp : pc = .l100
      · subst hp
        simp only [if_true] at h
        have h1 := (Option.some.inj h).symm
        subst h1
        simp
      · simp [hp] at h
  | main =>
      obtain ⟨⟨g, out⟩, pc, isS, status⟩ := s
      simp only at hr
      subst hr
      simp only [step, ne_eq, not_true_eq_false, if_false] at h
      unfold mainStep at h
      cases pc with
      | l89 =>
          simp only at h
          have h1 := (Option.some.inj h).symm
          subst h1
          simp [State.println]
      | l90 => simp at h
      | l91 =>
          cases isS with
          | none => simp at h
          | some c =>
              simp only at h
              have h1 := (Option.some.inj h).symm
              subst h1
              simp
      | l94 =>
          simp only at h
          have h1 := (Option.some.inj h).symm
          subst h1
          simp [State.println]
      | l96 =>
          cases isS with
          | none => simp at h
          | some c =>
              cases c <;> simp only at h <;>
                (have h1 := (Option.some.inj h).symm
                 subst h1
                 simp)
      | l100 => simp at h

theorem run_isSynced (s st : State) (sched : List Step) (b : Bool) (hi : Inv s)
    (h : run s sched = some st) :
    st.isSynced = some b ↔ (s.isSynced = some b ∨ Step.waitReturns b ∈ sched) := by
  induction sched generalizing s with
  | nil =>
      simp only [run] at h
      cases h
      simp
  | cons t ts ih =>
      obtain ⟨s1, h1, h2⟩ := run_cons_some s st t ts h
      rw [ih s1 (inv_step s s1 t hi h1) h2, step_isSynced s s1 t b hi h1]
      simp only [List.mem_cons]
      constructor
      · rintro ((h3 | h3) | h3)
        · exact Or.inl h3
        · exact Or.inr (Or.inl h3.symm)
        · exact Or.inr (Or.inr h3)
      · rintro (h3 | h3 | h3)
        · exact Or.inl (Or.inl h3)
        · exact Or.inl (Or.inr h3.symm)
        · exact Or.inr h3

theorem run_init_isSynced (st : State) (sched : List Step) (b : Bool)
    (h : run init sched = some st) :
    st.isSynced = some b ↔ Step.waitReturns b ∈ sched := by
  rw [run_isSynced init st sched b inv_init h]
  simp [init]

theorem inv_gate_true (s : State) (hi : Inv s) (h : s.synced = true) :
    s.pastGateWrite = true ∧ s.isSynced = some true := by
  have hp : s.pastGateWrite = true := by
    cases hq : s.pastGateWrite
    · have := (hi.pre_gate hq).1
      simp [h] at this
    · rfl
  exact ⟨hp, by simpa [h] using hi.post_gate hp⟩

theorem step_gate_true (s s1 : State) (t : Step) (hi : Inv s)
    (h : step s t = some s1) (hg : s.synced = true) : s1.synced = true := by
  have hr := step_running s s1 _ h
  have hp := (inv_gate_true s hi hg).1
  cases t with
  | deliver e =>
      rcases step_deliver_ok s s1 e h with ⟨w, hd, rfl⟩ | ⟨msg, _, rfl⟩
      · simpa [dispatch_synced_ok _ _ _ hd] using hg
      · exact hg
  | waitReturns c =>
      obtain ⟨⟨g, out⟩, pc, isS, status⟩ := s
      simp only at hr
      subst hr
      simp only [step, ne_eq, not_true_eq_false, if_false] at h
      by_cases hq : pc = .l90
      · subst hq
        simp [State.pastGateWrite] at hp
      · simp [hq] at h
  | done =>
      obtain ⟨⟨g, out⟩, pc, isS, status⟩ := s
      simp only at hr
      subst hr
      simp only [step, ne_eq, not_true_eq_false, if_false] at h
      by_cases hq : pc = .l100
      · subst hq
        simp only [if_true] at h
        have h1 := (Option.some.inj h).symm
        subst h1
        exact hg
      · simp [hq] at h
  | main =>
      obtain ⟨⟨g, out⟩, pc, isS, status⟩ := s
      simp only at hr hg
      subst hr
      subst hg
      simp only [step, ne_eq, not_true_eq_false, if_false] at h
      unfold mainStep at h
      cases pc with
      | l89 => simp [State.pastGateWrite] at hp
      | l90 => simp at h
      | l91 => simp [State.pastGateWrite] at hp
      | l94 =>
          simp only at h
          have h1 := (Option.some.inj h).symm
          subst h1
          simp [State.println]
      | l96 =>
          cases isS with
          | none => simp at h
          | some c =>
              cases c <;> simp only at h <;>
                (have h1 := (Option.some.inj h).symm
                 subst h1
                 rfl)
      | l100 => simp at h

theorem run_gate_true (s st : State) (sched : List Step) (hi : Inv s)
    (h : run s sched = some st) (hg : s.synced = true) : st.synced = true := by
  induction sched generalizing s with
  | nil =>
      simp only [run] at h
      cases h
      exact hg
  | cons t ts ih =>
      obtain ⟨s1, h1, h2⟩ := run_cons_some s st t ts h
      exact ih s1 (inv_step s s1 t hi h1) h2 (step_gate_true s s1 t hi h1 hg)

/-! ## Deliveries after the gate has opened -/

theorem deliveries_cons (t : Step) (ts : List Step) :
    deliveries (t :: ts) = deliveries [t] ++ deliveries ts := by
  cases t <;> simp [deliveries]

theorem dispatch_typed (w : World) (e : Event) (l : String) (hg : w.synced = true)
    (hl : expectedLine e = some l) :
    dispatch w e = .ok { w with stdout := w.stdout ++ [⟨Writer.handler, l⟩] } := by
  obtain ⟨g, out⟩ := w
  simp only at hg
  subst hg
  cases e with
  | added obj =>
      cases obj with
      | unstructured r =>
          simp only [expectedLine, Option.some.injEq] at hl
          subst hl
          simp [dispatch, AddFunc, Obj.assertUnstructured, GetName, bind, Except.bind, pure,
            Except.pure, World.printf, Unstructured.GetName, String.append_assoc]
      | nilUnstructured => simp [expectedLine] at hl
      | other d => simp [expectedLine] at hl
  | updated o obj =>
      cases obj with
      | unstructured r =>
          cases o with
          | unstructured r0 =>
              simp only [expectedLine, Option.some.injEq] at hl
              subst hl
              simp [dispatch, UpdateFunc, Obj.assertUnstructured, GetName, bind, Except.bind,
                pure, Except.pure, World.printf, Unstructured.GetName, String.append_assoc]
          | nilUnstructured => simp [expectedLine] at hl
          | other d => simp [expectedLine] at hl
      | nilUnstructured => cases o <;> simp [expectedLine] at hl
      | other d => cases o <;> simp [expectedLine] at hl
  | deleted obj =>
      cases obj with
      | unstructured r =>
          simp only [expectedLine, Option.some.injEq] at hl
          subst hl
          simp [dispatch, DeleteFunc, Obj.assertUnstructured, GetName, bind, Except.bind, pure,
            Except.pure, World.printf, Unstructured.GetName, String.append_assoc]
      | nilUnstructured => simp [expectedLine] at hl
      | other d => simp [expectedLine] at hl

theorem step_handlerWrites (s s1 : State) (t : Step) (hg : s.synced = true)
    (h : step s t = some s1) (ht : ∀ e ∈ deliveries [t], (expectedLine e).isSome) :
    (handlerWrites s1.toWorld).map some =
      (handlerWrites s.toWorld).map some ++ (deliveries [t]).map expectedLine := by
  have hr := step_running s s1 _ h
  obtain ⟨⟨g, out⟩, pc, isS, status⟩ := s
  simp only at hr hg
  subst hr
  subst hg
  cases t with
  | deliver e =>
      have he := ht e (by simp [deliveries])
      obtain ⟨l, hl⟩ := Option.isSome_iff_exists.mp he
      have hd := dispatch_typed ⟨true, out⟩ e l rfl hl
      simp only [step, ne_eq, not_true_eq_false, if_false, hd] at h
      have h1 := (Option.some.inj h).symm
      subst h1
      simp [handlerWrites, deliveries, List.filter_append, hl]
  | waitReturns c =>
      simp only [step, ne_eq, not_true_eq_false, if_false] at h
      by_cases hq : pc = .l90
      · subst hq
        simp only [if_true] at h
        have h1 := (Option.some.inj h).symm
        subst h1
        simp [deliveries]
      · simp [hq] at h
  | done =>
      simp only [step, ne_eq, not_true_eq_false, if_false] at h
      by_cases hq : pc = .l100
      · subst hq
        simp only [if_true] at h
        have h1 := (Option.some.inj h).symm
        subst h1
        simp [deliveries]
      · simp [hq] at h
  | main =>
      simp only [step, ne_eq, not_true_eq_false, if_false] at h
      unfold mainStep at h
      cases pc with
      | l89 =>
          simp only at h
          have h1 := (Option.some.inj h).symm
          subst h1
          simp [deliveries, State.println, handlerWrites, List.filter_append]
      | l90 => simp at h
      | l91 =>
          cases isS with
          | none => simp at h
          | some c =>
              simp only at h
              have h1 := (Option.some.inj h).symm
              subst h1
              simp [deliveries, handlerWrites]
      | l94 =>
          simp only at h
          have h1 := (Option.some.inj h).symm
          subst h1
          simp [deliveries, State.println, handlerWrites, List.filter_append]
      | l96 =>
          cases isS with
          | none => simp at h
          | some c =>
              cases c <;> simp only at h <;>
                (have h1 := (Option.some.inj h).symm
                 subst h1
                 simp [deliveries])
      | l100 => simp at h

theorem run_handlerWrites (s st : State) (sched : List Step) (hi : Inv s)
    (hg : s.synced = true) (h : run s sched = some st)
    (ht : ∀ e ∈ deliveries sched, (expectedLine e).isSome) :
    (handlerWrites st.toWorld).map some =
      (handlerWrites s.toWorld).map some ++ (deliveries sched).map expectedLine := by
  induction sched generalizing s with
  | nil =>
      simp only [run] at h
      cases h
      simp [deliveries]
  | cons t ts ih =>
      obtain ⟨s1, h1, h2⟩ := run_cons_some s st t ts h
      rw [deliveries_cons] at ht ⊢
      have ht1 : ∀ e ∈ deliveries [t], (expectedLine e).isSome :=
        fun e he => ht e (List.mem_append_left _ he)
      have ht2 : ∀ e ∈ deliveries ts, (expectedLine e).isSome :=
        fun e he => ht e (List.mem_append_right _ he)
      rw [ih s1 (inv_step s s1 t hi h1) (step_gate_true s s1 t hi h1 hg) h2 ht2,
        step_handlerWrites s s1 t hg h1 ht1]
      simp

/-! ## Progress of the main control unit -/

theorem failed_reaches_fatal (s : State) (hi : Inv s) (hr : s.status = .running)
    (hf : s.isSynced = some false) :
    ∃ k, k ≤ 3 ∧
      (run s (List.replicate k Step.main)).map State.status = some (.fatal "failed to sync") := by
  obtain ⟨⟨g, out⟩, pc, isS, status⟩ := s
  simp only at hr hf
  subst hr
  subst hf
  have hu := hi.unset
  have hd := hi.at_done
  cases pc with
  | l89 => simp at hu
  | l90 => simp at hu
  | l91 => exact ⟨3, by decide, by simp [List.replicate, run, step, mainStep, State.println]⟩
  | l94 => exact ⟨2, by decide, by simp [List.replicate, run, step, mainStep, State.println]⟩
  | l96 => exact ⟨1, by decide, by simp [List.replicate, run, step, mainStep]⟩
  | l100 => simp at hd

theorem synced_reaches_done_wait (s : State) (hi : Inv s) (hr : s.status = .running)
    (hf : s.isSynced = some true) :
    ∃ k st, k ≤ 3 ∧ run s (List.replicate k Step.main) = some st ∧
      st.pc = .l100 ∧ st.status = .running := by
  obtain ⟨⟨g, out⟩, pc, isS, status⟩ := s
  simp only at hr hf
  subst hr
  subst hf
  have hu := hi.unset
  cases pc with
  | l89 => simp at hu
  | l90 => simp at hu
  | l91 => exact ⟨3, _, by decide, by simp [List.replicate, run, step, mainStep, State.println]; rfl, rfl, rfl⟩
  | l94 => exact ⟨2, _, by decide, by simp [List.replicate, run, step, mainStep, State.println]; rfl, rfl, rfl⟩
  | l96 => exact ⟨1, _, by decide, by simp [List.replicate, run, step, mainStep]; rfl, rfl, rfl⟩
  | l100 => exact ⟨0, _, by decide, by simp [List.replicate, run]; rfl, rfl, rfl⟩

/-! ## The dispatcher (claims C1, C2, C10) -/

/-- C1. No pre-sync dispatch: a notification of any kind with any payloads,
delivered while the gate reads false, makes the callback return normally with
standard output unchanged (no handler line printed) and the gate still false. -/
theorem no_pre_sync_dispatch (e : Event) (out : List Write) :
    dispatch ⟨false, out⟩ e = .ok ⟨false, out⟩ :=
  dispatch_unsynced ⟨false, out⟩ e rfl

/-- C2. Exactly-once post-sync dispatch: with the gate true and typed Resource
payloads, the callback of the kind of the notification returns normally having
appended exactly one line to standard output, `created: <name of r>` for an
addition, `updated: <name of the new Resource>` for an update and
`deleted: <name of r>` for a deletion, and nothing else; the gate stays true. -/
theorem exactly_once_post_sync_dispatch (r old new : Unstructured) (out : List Write) :
    dispatch ⟨true, out⟩ (.added (.unstructured r)) =
        .ok ⟨true, out ++ [⟨Writer.handler, "created: " ++ r.GetName ++ "\n"⟩]⟩ ∧
      dispatch ⟨true, out⟩ (.updated (.unstructured old) (.unstructured new)) =
        .ok ⟨true, out ++ [⟨Writer.handler, "updated: " ++ new.GetName ++ "\n"⟩]⟩ ∧
      dispatch ⟨true, out⟩ (.deleted (.unstructured r)) =
        .ok ⟨true, out ++ [⟨Writer.handler, "deleted: " ++ r.GetName ++ "\n"⟩]⟩ := by
  refine ⟨?_, ?_, ?_⟩ <;>
    simp [dispatch, AddFunc, UpdateFunc, DeleteFunc, Obj.assertUnstructured, GetName, bind,
      Except.bind, pure, Except.pure, World.printf, String.append_assoc]

/-- C10 as stated fails: with the gate true a nil `*unstructured.Unstructured`
payload passes the type assertion, and the callback panics in `GetName` with the
nil dereference of the runtime, not with the failure of the type assertion. -/
theorem nil_pointer_passes_assertion :
    Obj.nilUnstructured.assertUnstructured = .ok none ∧
      dispatch ⟨true, []⟩ (.added .nilUnstructured) = .error nilDereference ∧
      dispatch ⟨true, []⟩ (.updated (.unstructured resX) .nilUnstructured) =
        .error nilDereference ∧
      dispatch ⟨true, []⟩ (.deleted .nilUnstructured) = .error nilDereference := by
  refine ⟨rfl, rfl, rfl, rfl⟩

/-- C10, amended. Dispatch fails exactly on a bad extracted payload after sync:
for every gate value, kind and payloads the callback panics if and only if the
gate is true and the payload it extracts (`obj` for an addition or a deletion,
`newObj` for an update) is not a typed Resource.  The panic is the one of the
type assertion when the payload has another dynamic type, and the nil
dereference in `GetName` when it is the nil pointer, which passes the assertion.
Dispatch with the gate false never fails, and the old payload of an update
changes neither the outcome nor the output. -/
theorem dispatch_fails_iff_bad_payload_after_sync :
    (∀ (g : Bool) (out : List Write) (e : Event),
        (∃ msg, dispatch ⟨g, out⟩ e = .error msg) ↔
          (g = true ∧ e.extracted.isUnstructured = false)) ∧
      (∀ (w : World) (e : Event) (msg : String), dispatch w e = .error msg →
        e.extracted.assertUnstructured = .error msg ∨
          (e.extracted = .nilUnstructured ∧ msg = nilDereference)) ∧
      (∀ (out : List Write) (e : Event), ∃ w, dispatch ⟨false, out⟩ e = .ok w) ∧
      (∀ (w : World) (oldObj oldObj2 newObj : Obj),
        dispatch w (.updated oldObj newObj) = dispatch w (.updated oldObj2 newObj)) := by
  refine ⟨?_, ?_, ?_, ?_⟩
  · intro g out e
    cases g
    · simp [dispatch_unsynced ⟨false, out⟩ e rfl]
    · cases e with
      | added obj =>
          cases obj <;>
            simp [dispatch, AddFunc, Obj.assertUnstructured, GetName, bind, Except.bind, pure,
              Except.pure, Event.extracted, Obj.isUnstructured]
      | updated o obj =>
          cases obj <;>
            simp [dispatch, UpdateFunc, Obj.assertUnstructured, GetName, bind, Except.bind,
              pure, Except.pure, Event.extracted, Obj.isUnstructured]
      | deleted obj =>
          cases obj <;>
            simp [dispatch, DeleteFunc, Obj.assertUnstructured, GetName, bind, Except.bind,
              pure, Except.pure, Event.extracted, Obj.isUnstructured]
  · intro w e msg h
    cases hg : w.synced
    · rw [dispatch_unsynced w e hg] at h
      cases h
    · cases e with
      | added obj =>
          cases obj <;>
            simp [dispatch, AddFunc, hg, Obj.assertUnstructured, GetName, bind, Except.bind,
              pure, Except.pure, Event.extracted] at h ⊢ <;> exact h.symm ▸ rfl
      | updated o obj =>
          cases obj <;>
            simp [dispatch, UpdateFunc, hg, Obj.assertUnstructured, GetName, bind, Except.bind,
              pure, Except.pure, Event.extracted] at h ⊢ <;> exact h.symm ▸ rfl
      | deleted obj =>
          cases obj <;>
            simp [dispatch, DeleteFunc, hg, Obj.assertUnstructured, GetName, bind, Except.bind,
              pure, Except.pure, Event.extracted] at h ⊢ <;> exact h.symm ▸ rfl
  · intro out e
    exact ⟨_, dispatch_unsynced ⟨false, out⟩ e rfl⟩
  · intro w oldObj oldObj2 newObj
    rfl

/-! ## Runs of the whole program (claims C3 to C8) -/

/-- C3. Gate monotonicity: in every run, whatever notifications are delivered and
wherever the locked write of `main` falls, once the gate reads true at some point
of the run it reads true at every later point of that run. -/
theorem gate_monotonicity (s1 s2 : List Step) (st1 st2 : State)
    (h1 : run init s1 = some st1) (h2 : run st1 s2 = some st2)
    (hg : st1.synced = true) : st2.synced = true :=
  run_gate_true st1 st2 s2 (inv_run init st1 s1 inv_init h1) h2 hg

/-- Witness for C3: the gate is open after the locked write of a successful sync
and still open when the run has ended. -/
theorem gate_monotonicity_witness :
    run init (preSchedule ++ [.main]) = some stateGateOpen ∧
      run stateGateOpen postSchedule = some stateEndSynced ∧
      stateGateOpen.synced = true ∧ stateEndSynced.synced = true :=
  ⟨by rfl, by rfl, rfl,
    gate_monotonicity (preSchedule ++ [Step.main]) postSchedule stateGateOpen stateEndSynced
      (by rfl) (by rfl) rfl⟩

/-- C4. Sync ordering: at every point of every run at which the gate holds true,
`cache.WaitForCacheSync` has already returned true in that run; at every point
before it has returned true the gate is false. -/
theorem sync_ordering (s1 s2 : List Step) (st : State)
    (h : run init (s1 ++ s2) = some st) :
    ∃ st1, run init s1 = some st1 ∧
      (st1.synced = true → Step.waitReturns true ∈ s1) ∧
      (Step.waitReturns true ∉ s1 → st1.synced = false) := by
  obtain ⟨st1, h1, _⟩ := run_append_some init st s1 s2 h
  have hi := inv_run init st1 s1 inv_init h1
  have key : st1.synced = true → Step.waitReturns true ∈ s1 := fun hg =>
    (run_init_isSynced st1 s1 true h1).1 (inv_gate_true st1 hi hg).2
  refine ⟨st1, h1, key, ?_⟩
  intro hn
  cases hs : st1.synced
  · rfl
  · exact (hn (key hs)).elim

/-- Witness for C4: a whole run with a successful sync, looked at right after the
locked write. -/
theorem sync_ordering_witness :
    run init ((preSchedule ++ [.main]) ++ postSchedule) = some stateEndSynced ∧
      ∃ st1, run init (preSchedule ++ [.main]) = some st1 ∧
        (st1.synced = true → Step.waitReturns true ∈ preSchedule ++ [.main]) ∧
        (Step.waitReturns true ∉ preSchedule ++ [.main] → st1.synced = false) :=
  ⟨by decide,
    sync_ordering (preSchedule ++ [Step.main]) postSchedule stateEndSynced (by decide)⟩

/-- C6. Cancellation safety: in every run in which `cache.WaitForCacheSync`
returns false, at every point of the run (before the wait returns, between its
return and the locked write, after the locked write) no callback has printed a
handler line and the gate is false, whatever notifications have been delivered. -/
theorem cancellation_safety (s1 s2 : List Step) (st : State)
    (h : run init (s1 ++ s2) = some st) (hf : Step.waitReturns false ∈ s1 ++ s2) :
    ∃ st1, run init s1 = some st1 ∧ handlerWrites st1.toWorld = [] ∧
      st1.synced = false := by
  obtain ⟨st1, h1, h2⟩ := run_append_some init st s1 s2 h
  have hi := inv_run init st1 s1 inv_init h1
  have hfin : st.isSynced = some false := (run_init_isSynced st (s1 ++ s2) false h).2 hf
  have hs : st1.synced = false := by
    cases hs : st1.synced
    · rfl
    · have h3 := (run_isSynced st1 st s2 true hi h2).2 (Or.inl (inv_gate_true st1 hi hs).2)
      rw [hfin] at h3
      cases h3
  exact ⟨st1, h1, hi.quiet hs, hs⟩

/-- Witness for C6: the run of `failedSchedule`, looked at after its last
delivery and at its end. -/
theorem cancellation_safety_witness :
    run init (failedSchedule.take 6 ++ failedSchedule.drop 6) = some stateEndFailed ∧
      Step.waitReturns false ∈ failedSchedule.take 6 ++ failedSchedule.drop 6 ∧
      ∃ st1, run init (failedSchedule.take 6) = some st1 ∧
        handlerWrites st1.toWorld = [] ∧ st1.synced = false :=
  ⟨by decide, by decide,
    cancellation_safety (failedSchedule.take 6) (failedSchedule.drop 6) stateEndFailed
      (by decide) (by decide)⟩

/-- C7. Pre-sync notifications are discarded, not queued or replayed: in a run
whose wait returns true, let `pre` be the schedule up to the locked write and
`post` the schedule after it, all notifications of `post` carrying typed
Resources.  Then the state at the locked write is the same for every `pre`, and
the handler lines of the whole run are exactly the expected lines of the
notifications of `post`, one each, in delivery order. -/
theorem pre_sync_events_discarded (pre post : List Step) (st0 st : State)
    (hpre : run init pre = some st0) (hpc : st0.pc = .l91)
    (hok : Step.waitReturns true ∈ pre)
    (hpost : run st0 (.main :: post) = some st)
    (htyped : ∀ e ∈ deliveries post, (expectedLine e).isSome) :
    st0 = stateAtGateWrite ∧
      (handlerWrites st.toWorld).map some = (deliveries post).map expectedLine := by
  have hi := inv_run init st0 pre inv_init hpre
  have his : st0.isSynced = some true := (run_init_isSynced st0 pre true hpre).2 hok
  have hpg := hi.pre_gate (by simp [State.pastGateWrite, hpc])
  have h0 : st0 = stateAtGateWrite := by
    obtain ⟨⟨g, out⟩, pc, isS, status⟩ := st0
    simp only at hpc his hpg
    subst hpc
    subst his
    obtain ⟨hg, hst, ho⟩ := hpg
    subst hg
    subst hst
    simp at ho
    subst ho
    rfl
  refine ⟨h0, ?_⟩
  subst h0
  obtain ⟨s1, hs1, hs2⟩ := run_cons_some stateAtGateWrite st .main post hpost
  have hopen : s1 = stateGateOpen := by
    have : step stateAtGateWrite .main = some stateGateOpen := by rfl
    rw [this] at hs1
    exact (Option.some.inj hs1).symm
  subst hopen
  have hio : Inv stateGateOpen := inv_step stateAtGateWrite stateGateOpen .main hi hs1
  have := run_handlerWrites stateGateOpen st post hio rfl hs2 htyped
  simpa [handlerWrites, stateGateOpen] using this

/-- Witness for C7: additions of `x`, `y` and `z` before the gate opens print
nothing; the update of `x` delivered afterwards prints its one line. -/
theorem pre_sync_events_discarded_witness :
    run init preSchedule = some stateAtGateWrite ∧
      run stateAtGateWrite (.main :: postSchedule) = some stateEndSynced ∧
      handlerWrites stateEndSynced.toWorld = ["updated: x\n"] ∧
      (handlerWrites stateEndSynced.toWorld).map some =
        (deliveries postSchedule).map expectedLine :=
  ⟨by rfl, by rfl, by rfl,
    (pre_sync_events_discarded preSchedule postSchedule stateAtGateWrite stateEndSynced
      (by rfl) rfl (by decide) (by rfl) (by decide)).2⟩

/-- C5 as stated fails: in the run whose wait returns false, `main` stands at the
locked write of lines 91-93 after the wait, executes it (storing false) and only
then prints and exits with the fatal error; the fatal state lies past the write. -/
theorem sync_failure_performs_gate_write :
    Step.waitReturns false ∈ failedMinimal ∧
      (run init (failedMinimal.take 2)).map (fun s => (s.pc, s.synced)) = some (.l91, false) ∧
      (run init (failedMinimal.take 3)).map (fun s => (s.pc, s.synced)) = some (.l94, false) ∧
      run init failedMinimal = some stateEndFailed ∧
      stateEndFailed.status = .fatal "failed to sync" ∧
      stateEndFailed.pastGateWrite = true := by
  refine ⟨by decide, by rfl, by rfl, by rfl, rfl, rfl⟩

/-- C5, amended. The fatal exit is taken if and only if the wait returned false:
a fatal state occurs only in a run whose wait returned false, and it lies past
the locked write, which has stored false; in such a run the gate is false at
every point, `main` never blocks on the done signal and never returns, the
process is running or has exited fatally, and while it runs at most three steps
of `main` lead to the fatal exit.  In a run whose wait returned true no fatal
exit occurs, and while the process runs at most three steps of `main` lead to
the wait for the done signal. -/
theorem sync_failure_fatal_path (sched : List Step) (st : State)
    (h : run init sched = some st) :
    ((∃ msg, st.status = .fatal msg) →
        Step.waitReturns false ∈ sched ∧ st.pastGateWrite = true ∧ st.synced = false) ∧
      (Step.waitReturns false ∈ sched →
        st.synced = false ∧ st.pc ≠ .l100 ∧ st.status ≠ .returned ∧
          (st.status = .running ∨ ∃ msg, st.status = .fatal msg) ∧
          (st.status = .running → ∃ k, k ≤ 3 ∧
            (run st (List.replicate k Step.main)).map State.status =
              some (.fatal "failed to sync"))) ∧
      (Step.waitReturns true ∈ sched →
        (∀ msg, st.status ≠ .fatal msg) ∧
          (st.status = .running → ∃ k st1, k ≤ 3 ∧
            run st (List.replicate k Step.main) = some st1 ∧
            st1.pc = .l100 ∧ st1.status = .running)) := by
  have hi := inv_run init st sched inv_init h
  have hsy : ∀ b, Step.waitReturns b ∈ sched → st.isSynced = some b :=
    fun b hb => (run_init_isSynced st sched b h).2 hb
  have hgate : st.isSynced = some false → st.synced = false := by
    intro hf
    cases hs : st.synced
    · rfl
    · have := (inv_gate_true st hi hs).2
      rw [hf] at this
      cases this
  refine ⟨?_, ?_, ?_⟩
  · rintro ⟨msg, hm⟩
    obtain ⟨hf, hp⟩ := hi.fatal_failed msg hm
    exact ⟨(run_init_isSynced st sched false h).1 hf, by simp [State.pastGateWrite, hp],
      hgate hf⟩
  · intro hb
    have hf := hsy false hb
    have hg := hgate hf
    have hpc : st.pc ≠ .l100 := by
      intro hp
      have := hi.at_done hp
      rw [hf] at this
      cases this
    refine ⟨hg, hpc, fun hr => hpc (hi.returned_done hr), ?_,
      fun hr => failed_reaches_fatal st hi hr hf⟩
    cases hst : st.status with
    | running => exact Or.inl rfl
    | fatal msg => exact Or.inr ⟨msg, rfl⟩
    | returned => exact (hpc (hi.returned_done hst)).elim
    | panicked msg =>
        have := hi.panicked_synced msg hst
        rw [hg] at this
        cases this
  · intro hb
    have ht := hsy true hb
    refine ⟨?_, fun hr => synced_reaches_done_wait st hi hr ht⟩
    intro msg hm
    have := (hi.fatal_failed msg hm).1
    rw [ht] at this
    cases this

/-- Witness for C5: the run of `failedSchedule` ends in the fatal state, its wait
returned false and the state lies past the locked write with the gate false. -/
theorem sync_failure_fatal_path_witness :
    run init failedSchedule = some stateEndFailed ∧
      Step.waitReturns false ∈ failedSchedule ∧
      stateEndFailed.pastGateWrite = true ∧ stateEndFailed.synced = false :=
  ⟨by rfl,
    (sync_failure_fatal_path failedSchedule stateEndFailed (by rfl)).1
      ⟨"failed to sync", rfl⟩⟩

/-- C8 as stated fails: when the wait has returned false the locked write leaves
the gate false, and it turns a gate that read true to false. -/
theorem gate_write_can_store_false :
    (run init [.main, .waitReturns false, .main]).map (fun s => (s.pc, s.synced)) =
        some (.l94, false) ∧
      (mainStep ⟨⟨true, []⟩, .l91, some false, .running⟩).map (fun s => (s.pc, s.synced)) =
        some (.l94, false) := by
  exact ⟨by rfl, by rfl⟩

/-- C8, amended. The locked write of lines 91-93 stores the outcome of the wait:
for every prior value `g` of the gate and every outcome `b`, the step of `main`
at the write leaves the gate reading `b` and changes nothing else but the control
point; so after the write the gate reads true exactly when the wait returned
true. -/
theorem gate_write_stores_wait_outcome (g b : Bool) (out : List Write) :
    step ⟨⟨g, out⟩, .l91, some b, .running⟩ .main =
        some ⟨⟨b, out⟩, .l94, some b, .running⟩ ∧
      ((step ⟨⟨g, out⟩, .l91, some b, .running⟩ .main).map (fun s => s.synced) = some true ↔
        b = true) := by
  constructor
  · rfl
  · have : step ⟨⟨g, out⟩, .l91, some b, .running⟩ .main =
        some ⟨⟨b, out⟩, .l94, some b, .running⟩ := rfl
    rw [this]
    simp

/-! ## Runs with the lock explicit (claim C9) -/

theorem linv_init : LInv linit := by
  constructor <;> simp [linit, LState.pastWrite]

theorem body_synced (w w1 : World) (e : Event) (h : body w e = .ok w1) :
    w1.synced = w.synced := by
  cases e with
  | added obj =>
      cases obj <;>
        simp [body, Obj.assertUnstructured, GetName, bind, Except.bind, pure, Except.pure,
          World.printf] at h
      subst h; rfl
  | updated o obj =>
      cases obj <;>
        simp [body, Obj.assertUnstructured, GetName, bind, Except.bind, pure, Except.pure,
          World.printf] at h
      subst h; rfl
  | deleted obj =>
      cases obj <;>
        simp [body, Obj.assertUnstructured, GetName, bind, Except.bind, pure, Except.pure,
          World.printf] at h
      subst h; rfl

theorem lstep_running (s s1 : LState) (t : LStep) (h : lstep s t = some s1) :
    s.status = .running := by
  unfold lstep at h
  by_cases hr : s.status = .running
  · exact hr
  · simp [hr] at h

theorem linv_step (s s1 : LState) (t : LStep) (hi : LInv s) (h : lstep s t = some s1) :
    LInv s1 := by
  have hr := lstep_running s s1 _ h
  obtain ⟨⟨g, out⟩, writer, readers, units, pc, isS, status⟩ := s
  simp only at hr
  subst hr
  obtain ⟨i1, i2, i3, i4, i5, i6, i7, i8⟩ := hi
  simp only at i1 i2 i3 i4 i5 i6 i7 i8
  cases t with
  | waitReturns b =>
      simp only [lstep, ne_eq, not_true_eq_false, if_false] at h
      by_cases hp : pc = .l90
      · subst hp
        simp only [if_true] at h
        have h1 := (Option.some.inj h).symm
        subst h1
        constructor <;> simp_all [LState.pastWrite]
      · simp [hp] at h
  | done =>
      simp only [lstep, ne_eq, not_true_eq_false, if_false] at h
      by_cases hp : pc = .l100
      · subst hp
        simp only [if_true] at h
        have h1 := (Option.some.inj h).symm
        subst h1
        constructor <;> simp_all [LState.pastWrite]
        assumption
      · simp [hp] at h
  | main =>
      simp only [lstep, ne_eq, not_true_eq_false, if_false] at h
      unfold lmainStep at h
      cases pc with
      | l89 =>
          simp only at h
          have h1 := (Option.some.inj h).symm
          subst h1
          constructor <;> simp_all [LState.pastWrite, LState.println]
      | l90 => simp at h
      | l91 =>
          simp only [LState.Lock] at h
          by_cases hl : writer = false ∧ readers = []
          · simp only [hl, and_self, if_true, Option.map_some'] at h
            have h1 := (Option.some.inj h).symm
            subst h1
            obtain ⟨hw, hrd⟩ := hl
            subst hw; subst hrd
            constructor <;> simp_all [LState.pastWrite]
          · simp [hl] at h
      | l92 =>
          cases isS with
          | none => simp at h
          | some b =>
              simp only at h
              have h1 := (Option.some.inj h).symm
              subst h1
              have hw : writer = true := i3.2 (Or.inl rfl)
              have hrd : readers = [] := i4 hw
              subst hrd
              have hidle : ∀ j, units j = .idle := by
                intro j
                by_contra hj
                have := (i1 j).1 hj
                simp at this
              constructor <;> simp_all [LState.pastWrite]
      | l93 =>
          simp only [LState.Unlock] at h
          have h1 := (Option.some.inj h).symm
          subst h1
          constructor <;> simp_all [LState.pastWrite]
      | l94 =>
          simp only at h
          have h1 := (Option.some.inj h).symm
          subst h1
          constructor <;> simp_all [LState.pastWrite, LState.println]
          assumption
      | l96 =>
          cases isS with
          | none => simp at h
          | some b =>
              cases b <;> simp only at h <;>
                (have h1 := (Option.some.inj h).symm
                 subst h1
                 constructor <;> simp_all [LState.pastWrite])
      | l100 => simp at h
  | invoke i e =>
      simp only [lstep, ne_eq, not_true_eq_false, if_false] at h
      cases hu : units i with
      | idle =>
          simp only [hu, LState.RLock] at h
          cases hw : writer with
          | true => simp [hw] at h
          | false =>
              simp only [hw, Bool.false_eq_true, if_false, Option.map_some'] at h
              have h1 := (Option.some.inj h).symm
              subst h1
              have hni : i ∉ readers := fun hm => (i1 i).2 hm hu
              refine ⟨?_, ?_, ?_, ?_, i5, i6, i7, ?_⟩
              · intro j
                by_cases hj : j = i
                · subst hj
                  simp
                · simp [Function.update_noteq hj, hj, i1 j]
              · exact List.nodup_cons.mpr ⟨hni, i2⟩
              · simpa [hw] using i3
              · intro hwt
                simp [hw] at hwt
              · intro j b e1 hj
                by_cases hji : j = i
                · subst hji
                  simp at hj
                · simp only [Function.update_noteq hji] at hj
                  exact i8 j b e1 hj
      | atRead e1 => simp [hu] at h
      | hasRead b e1 => simp [hu] at h
      | atReturn p => simp [hu] at h
  | read i =>
      simp only [lstep, ne_eq, not_true_eq_false, if_false] at h
      cases hu : units i with
      | idle => simp [hu] at h
      | atRead e1 =>
          simp only [hu] at h
          have h1 := (Option.some.inj h).symm
          subst h1
          refine ⟨?_, i2, i3, i4, i5, i6, i7, ?_⟩
          · intro j
            by_cases hj : j = i
            · subst hj
              have := (i1 j).1 (by simp [hu])
              simpa using this
            · simp [Function.update_noteq hj, i1 j]
          · intro j b e2 hj
            by_cases hji : j = i
            · subst hji
              simp at hj
              exact hj.1.symm
            · simp only [Function.update_noteq hji] at hj
              exact i8 j b e2 hj
      | hasRead b e1 => simp [hu] at h
      | atReturn p => simp [hu] at h
  | act i =>
      simp only [lstep, ne_eq, not_true_eq_false, if_false] at h
      cases hu : units i with
      | idle => simp [hu] at h
      | atRead e1 => simp [hu] at h
      | atReturn p => simp [hu] at h
      | hasRead b e1 =>
          have hmem : i ∈ readers := (i1 i).1 (by simp [hu])
          have hholds : ∀ (v : HandlerPc), v ≠ .idle →
              ∀ j, Function.update units i v j ≠ .idle ↔ j ∈ readers := by
            intro v hv j
            by_cases hj : j = i
            · subst hj
              simpa [hv] using hmem
            · simp [Function.update_noteq hj, i1 j]
          have hfresh : ∀ (v : HandlerPc), (∀ c e2, v ≠ .hasRead c e2) →
              ∀ j c e2, Function.update units i v j = .hasRead c e2 → c = g := by
            intro v hv j c e2 hj
            by_cases hji : j = i
            · subst hji
              simp at hj
              exact (hv c e2 hj).elim
            · simp only [Function.update_noteq hji] at hj
              exact i8 j c e2 hj
          cases b with
          | false =>
              simp only [hu] at h
              have h1 := (Option.some.inj h).symm
              subst h1
              exact ⟨hholds _ (by simp), i2, i3, i4, i5, i6, i7, hfresh _ (by simp)⟩
          | true =>
              simp only [hu] at h
              cases hb : body ⟨g, out⟩ e1 with
              | ok w =>
                  simp only [hb] at h
                  have h1 := (Option.some.inj h).symm
                  subst h1
                  have hs := body_synced _ _ _ hb
                  simp only at hs
                  refine ⟨hholds _ (by simp), i2, i3, i4, ?_, ?_, i7, ?_⟩
                  · simpa [LState.pastWrite, hs] using i5
                  · simpa [LState.pastWrite, hs] using i6
                  · intro j c e2 hj
                    rw [hs]
                    exact hfresh _ (by simp) j c e2 hj
              | error msg =>
                  simp only [hb] at h
                  have h1 := (Option.some.inj h).symm
                  subst h1
                  exact ⟨hholds _ (by simp), i2, i3, i4, i5, i6, i7, hfresh _ (by simp)⟩
  | leave i =>
      simp only [lstep, ne_eq, not_true_eq_false, if_false] at h
      cases hu : units i with
      | idle => simp [hu] at h
      | atRead e1 => simp [hu] at h
      | hasRead b e1 => simp [hu] at h
      | atReturn p =>
          have hholds : ∀ j, Function.update units i .idle j ≠ .idle ↔ j ∈ readers.erase i := by
            intro j
            by_cases hj : j = i
            · subst hj
              simp [List.Nodup.mem_erase_iff i2]
            · simp [Function.update_noteq hj, i1 j, List.Nodup.mem_erase_iff i2, hj]
          have hfresh : ∀ j c e2, Function.update units i .idle j = .hasRead c e2 → c = g := by
            intro j c e2 hj
            by_cases hji : j = i
            · subst hji
              simp at hj
            · simp only [Function.update_noteq hji] at hj
              exact i8 j c e2 hj
          have hex : writer = true → readers.erase i = [] := by
            intro hw
            simp [i4 hw]
          cases p with
          | none =>
              simp only [hu, LState.RUnlock] at h
              have h1 := (Option.some.inj h).symm
              subst h1
              exact ⟨hholds, i2.erase i, i3, hex, i5, i6, i7, hfresh⟩
          | some msg =>
              simp only [hu, LState.RUnlock] at h
              have h1 := (Option.some.inj h).symm
              subst h1
              exact ⟨hholds, i2.erase i, i3, hex, i5, i6, i7, hfresh⟩

theorem lrun_cons_some (s st : LState) (t : LStep) (ts : List LStep)
    (h : lrun s (t :: ts) = some st) : ∃ s1, lstep s t = some s1 ∧ lrun s1 ts = some st := by
  simp only [lrun] at h
  cases hs : lstep s t with
  | none => simp [hs] at h
  | some s1 => exact ⟨s1, rfl, by simpa [hs] using h⟩

theorem linv_run (s st : LState) (sched : List LStep) (hi : LInv s)
    (h : lrun s sched = some st) : LInv st := by
  induction sched generalizing s with
  | nil =>
      simp only [lrun] at h
      cases h
      exact hi
  | cons t ts ih =>
      obtain ⟨s1, h1, h2⟩ := lrun_cons_some s st t ts h
      exact ih s1 (linv_step s s1 t hi h1) h2

theorem lstep_isSynced (s s1 : LState) (t : LStep) (b : Bool) (hi : LInv s)
    (h : lstep s t = some s1) :
    s1.isSynced = some b ↔ (s.isSynced = some b ∨ t = .waitReturns b) := by
  have hr := lstep_running s s1 _ h
  obtain ⟨⟨g, out⟩, writer, readers, units, pc, isS, status⟩ := s
  simp only at hr
  subst hr
  have hu := hi.unset
  simp only at hu
  cases t with
  | waitReturns c =>
      simp only [lstep, ne_eq, not_true_eq_false, if_false] at h
      by_cases hp : pc = .l90
      · subst hp
        simp only [if_true] at h
        have h1 := (Option.some.inj h).symm
        subst h1
        have : isS = none := hu.2 (Or.inr rfl)
        subst this
        simp [eq_comm]
      · simp [hp] at h
  | done =>
      simp only [lstep, ne_eq, not_true_eq_false, if_false] at h
      split at h
      · have h1 := (Option.some.inj h).symm
        subst h1
        simp
      · simp at h
  | main =>
      simp only [lstep, ne_eq, not_true_eq_false, if_false] at h
      unfold lmainStep at h
      cases pc with
      | l89 =>
          have h1 := (Option.some.inj h).symm
          subst h1
          simp [LState.println]
      | l90 => simp at h
      | l91 =>
          simp only [LState.Lock] at h
          split at h
          · simp only [Option.map_some'] at h
            have h1 := (Option.some.inj h).symm
            subst h1
            simp
          · simp at h
      | l92 =>
          cases isS with
          | none => simp at h
          | some c =>
              have h1 := (Option.some.inj h).symm
              subst h1
              simp
      | l93 =>
          have h1 := (Option.some.inj h).symm
          subst h1
          simp [LState.Unlock]
      | l94 =>
          have h1 := (Option.some.inj h).symm
          subst h1
          simp [LState.println]
      | l96 =>
          cases isS with
          | none => simp at h
          | some c =>
              cases c <;> simp only at h <;>
                (have h1 := (Option.some.inj h).symm
                 subst h1
                 simp)
      | l100 => simp at h
  | invoke i e =>
      simp only [lstep, ne_eq, not_true_eq_false, if_false, LState.RLock] at h
      split at h
      · split at h
        · simp at h
        · simp only [Option.map_some'] at h
          have h1 := (Option.some.inj h).symm
          subst h1
          simp
      · simp at h
  | read i =>
      simp only [lstep, ne_eq, not_true_eq_false, if_false] at h
      split at h
      · have h1 := (Option.some.inj h).symm
        subst h1
        simp
      · simp at h
  | act i =>
      simp only [lstep, ne_eq, not_true_eq_false, if_false] at h
      split at h
      · have h1 := (Option.some.inj h).symm
        subst h1
        simp
      · split at h <;>
          (have h1 := (Option.some.inj h).symm
           subst h1
           simp)
      · simp at h
  | leave i =>
      simp only [lstep, ne_eq, not_true_eq_false, if_false, LState.RUnlock] at h
      split at h
      · have h1 := (Option.some.inj h).symm
        subst h1
        simp
      · have h1 := (Option.some.inj h).symm
        subst h1
        simp
      · simp at h

theorem lrun_isSynced (s st : LState) (sched : List LStep) (b : Bool) (hi : LInv s)
    (h : lrun s sched = some st) :
    st.isSynced = some b ↔ (s.isSynced = some b ∨ LStep.waitReturns b ∈ sched) := by
  induction sched generalizing s with
  | nil =>
      simp only [lrun] at h
      cases h
      simp
  | cons t ts ih =>
      obtain ⟨s1, h1, h2⟩ := lrun_cons_some s st t ts h
      rw [ih s1 (linv_step s s1 t hi h1) h2, lstep_isSynced s s1 t b hi h1]
      simp only [List.mem_cons]
      constructor
      · rintro ((h3 | h3) | h3)
        · exact Or.inl h3
        · exact Or.inr (Or.inl h3.symm)
        · exact Or.inr (Or.inr h3)
      · rintro (h3 | h3 | h3)
        · exact Or.inl (Or.inl h3)
        · exact Or.inl (Or.inr h3.symm)
        · exact Or.inr h3

theorem lstep_pastUnlock (s s1 : LState) (t : LStep) (h : lstep s t = some s1)
    (hp : s.pastUnlock = true) : s1.pastUnlock = true ∧ s1.synced = s.synced := by
  have hr := lstep_running s s1 _ h
  obtain ⟨⟨g, out⟩, writer, readers, units, pc, isS, status⟩ := s
  simp only at hr
  subst hr
  cases t with
  | waitReturns c =>
      simp only [lstep, ne_eq, not_true_eq_false, if_false] at h
      split at h
      · rename_i hpc
        have hpc2 : pc = .l90 := hpc
        subst hpc2
        simp [LState.pastUnlock] at hp
      · simp at h
  | done =>
      simp only [lstep, ne_eq, not_true_eq_false, if_false] at h
      split at h
      · have h1 := (Option.some.inj h).symm
        subst h1
        exact ⟨hp, rfl⟩
      · simp at h
  | main =>
      simp only [lstep, ne_eq, not_true_eq_false, if_false] at h
      unfold lmainStep at h
      cases pc with
      | l89 => simp [LState.pastUnlock] at hp
      | l90 => simp [LState.pastUnlock] at hp
      | l91 => simp [LState.pastUnlock] at hp
      | l92 => simp [LState.pastUnlock] at hp
      | l93 => simp [LState.pastUnlock] at hp
      | l94 =>
          have h1 := (Option.some.inj h).symm
          subst h1
          simp [LState.println, LState.pastUnlock]
      | l96 =>
          cases isS with
          | none => simp at h
          | some c =>
              cases c <;> simp only at h <;>
                (have h1 := (Option.some.inj h).symm
                 subst h1
                 simp [LState.pastUnlock])
      | l100 => simp at h
  | invoke i e =>
      simp only [lstep, ne_eq, not_true_eq_false, if_false, LState.RLock] at h
      split at h
      · split at h
        · simp at h
        · simp only [Option.map_some'] at h
          have h1 := (Option.some.inj h).symm
          subst h1
          exact ⟨hp, rfl⟩
      · simp at h
  | read i =>
      simp only [lstep, ne_eq, not_true_eq_false, if_false] at h
      split at h
      · have h1 := (Option.some.inj h).symm
        subst h1
        exact ⟨hp, rfl⟩
      · simp at h
  | act i =>
      simp only [lstep, ne_eq, not_true_eq_false, if_false] at h
      split at h
      · have h1 := (Option.some.inj h).symm
        subst h1
        exact ⟨hp, rfl⟩
      · split at h
        · rename_i w hb
          have h1 := (Option.some.inj h).symm
          subst h1
          exact ⟨hp, body_synced _ _ _ hb⟩
        · have h1 := (Option.some.inj h).symm
          subst h1
          exact ⟨hp, rfl⟩
      · simp at h
  | leave i =>
      simp only [lstep, ne_eq, not_true_eq_false, if_false, LState.RUnlock] at h
      split at h
      · have h1 := (Option.some.inj h).symm
        subst h1
        exact ⟨hp, rfl⟩
      · have h1 := (Option.some.inj h).symm
        subst h1
        exact ⟨hp, rfl⟩
      · simp at h

theorem lrun_pastUnlock (s st : LState) (sched : List LStep) (h : lrun s sched = some st)
    (hp : s.pastUnlock = true) : st.pastUnlock = true ∧ st.synced = s.synced := by
  induction sched generalizing s with
  | nil =>
      simp only [lrun] at h
      cases h
      exact ⟨hp, rfl⟩
  | cons t ts ih =>
      obtain ⟨s1, h1, h2⟩ := lrun_cons_some s st t ts h
      obtain ⟨hp1, hs1⟩ := lstep_pastUnlock s s1 t h1 hp
      obtain ⟨hp2, hs2⟩ := ih s1 h2 hp1
      exact ⟨hp2, hs2.trans hs1⟩

/-- C9 as stated fails in its last clause: in a run whose wait returns false,
after `main` has returned from `mux.Unlock()` unit 0 takes the shared lock and
reads the gate, and the read yields false. -/
theorem read_after_failed_sync_yields_false :
    (lrun linit (lockedFailedSchedule.take 5)).map (fun s => (s.pastUnlock, s.synced)) =
        some (true, false) ∧
      (lrun linit lockedFailedSchedule).map
          (fun s => (s.pastUnlock, s.units 0, s.readers, s.writer)) =
        some (true, .hasRead false (.added (.unstructured resX)), [0], false) := by
  exact ⟨by rfl, by rfl⟩

/-- C9, amended. With the lock explicit, in every state `s` of every interleaving
of any number of handler-invoking units with `main`: a unit inside a callback,
from `mux.RLock()` over the read of the gate to the deferred `mux.RUnlock()`,
holds the shared lock and the lock is not held exclusively; when `main` stands
at its one write or at `mux.Unlock()` it holds the lock exclusively and no unit
is inside a callback; the gate is false until that write; the value a unit has
read is still the value of the gate while the unit acts on it; and once `main`
has returned from `mux.Unlock()`, the gate holds the outcome of
`cache.WaitForCacheSync` of that run (true after a successful wait, false after
a failed one) and in every later state `s2` every read by any unit yields that
value. -/
theorem gate_reads_under_lock (sched sched2 : List LStep) (s s2 : LState)
    (h : lrun linit sched = some s) (h2 : lrun s sched2 = some s2) :
    (∀ i, s.units i ≠ .idle → i ∈ s.readers ∧ s.writer = false) ∧
      ((s.pc = .l92 ∨ s.pc = .l93) →
        s.writer = true ∧ s.readers = [] ∧ ∀ i, s.units i = .idle) ∧
      (s.pastWrite = false → s.synced = false) ∧
      (∀ i b e, s.units i = .hasRead b e → b = s.synced) ∧
      (s.pastUnlock = true →
        LStep.waitReturns s.synced ∈ sched ∧ s2.pastUnlock = true ∧
          s2.synced = s.synced ∧
          ∀ i s3, lstep s2 (.read i) = some s3 →
            ∃ e, s2.units i = .atRead e ∧ s3.units i = .hasRead s.synced e) := by
  have hi := linv_run linit s sched linv_init h
  have hidle : s.readers = [] → ∀ i, s.units i = .idle := by
    intro hr i
    by_contra hc
    have := (hi.holds i).1 hc
    simp [hr] at this
  refine ⟨?_, ?_, hi.pre, hi.fresh, ?_⟩
  · intro i hne
    refine ⟨(hi.holds i).1 hne, ?_⟩
    cases hw : s.writer
    · rfl
    · exact (hne (hidle (hi.excl hw) i)).elim
  · intro hp
    have hw := hi.wr.2 hp
    exact ⟨hw, hi.excl hw, hidle (hi.excl hw)⟩
  · intro hp
    obtain ⟨hp2, hs2⟩ := lrun_pastUnlock s s2 sched2 h2 hp
    refine ⟨?_, hp2, hs2, ?_⟩
    · have hpw : s.pastWrite = true := by
        revert hp
        unfold LState.pastUnlock LState.pastWrite
        cases s.pc <;> simp
      have := hi.post hpw
      have h3 := (lrun_isSynced linit s sched s.synced linv_init h).1 this
      simpa [linit] using h3
    · intro i s3 hs
      have hr := lstep_running s2 s3 _ hs
      simp only [lstep, hr, ne_eq, not_true_eq_false, if_false] at hs
      split at hs
      · rename_i e he
        have h1 := (Option.some.inj hs).symm
        subst h1
        exact ⟨e, he, by simp [hs2]⟩
      · simp at hs

/-- Witness for C9: after a successful sync and the return of `main` from
`mux.Unlock()`, unit 0 enters a callback and its read of the gate yields true,
the value of the gate. -/
theorem gate_reads_under_lock_witness :
    ∃ s s2 s3, lrun linit lockedSyncedSchedule = some s ∧
      lrun s [.invoke 0 (.added (.unstructured resX))] = some s2 ∧
      lstep s2 (.read 0) = some s3 ∧ s.pastUnlock = true ∧ s.synced = true ∧
      ∃ e, s2.units 0 = .atRead e ∧ s3.units 0 = .hasRead s.synced e :=
  have h : lrun linit lockedSyncedSchedule =
      some ((lrun linit lockedSyncedSchedule).get (by rfl)) := (Option.some_get _).symm
  have h2 : lrun ((lrun linit lockedSyncedSchedule).get (by rfl))
        [.invoke 0 (.added (.unstructured resX))] =
      some ((lrun ((lrun linit lockedSyncedSchedule).get (by rfl))
        [.invoke 0 (.added (.unstructured resX))]).get (by rfl)) := (Option.some_get _).symm
  have h3 : lstep ((lrun ((lrun linit lockedSyncedSchedule).get (by rfl))
        [.invoke 0 (.added (.unstructured resX))]).get (by rfl)) (.read 0) =
      some ((lstep ((lrun ((lrun linit lockedSyncedSchedule).get (by rfl))
        [.invoke 0 (.added (.unstructured resX))]).get (by rfl)) (.read 0)).get (by rfl)) :=
    (Option.some_get _).symm
  ⟨_, _, _, h, h2, h3, by rfl, by rfl,
    ((gate_reads_under_lock lockedSyncedSchedule _ _ _ h h2).2.2.2.2 (by rfl)).2.2.2 0 _ h3⟩

end KubeCdevent
